import Mathlib

/-!
Verification of the GenAI trait-validation pipeline.

This file gives a shallow embedding, in Lean 4, of the core of the
repository: the reconciliation policy (`services/genAiService.js`), the
item processor / progress tracker (`processGenAiValidation`), the
concurrency limiter (`ConcurrencyController` in `server.js`), the
broadcast batching logic (`broadcastUpdate` / `flushBroadcastQueue` in
`server.js`), and the per-document trait-set and review-tag updates.

Modelling conventions:
* JavaScript numbers that matter only through order comparisons against a
  constant threshold are modelled as rationals; the special value NaN is
  modelled as `none` in an `Option ℚ`, and the JS comparison operators
  (which return false whenever one side is NaN) are embedded explicitly.
* A JS value that may be `null`/`undefined` or lack a required field is
  modelled as an `Option`.
* Asynchronous functions are embedded as pure state-passing functions;
  the single-threaded JS event loop means that the synchronous sections
  between `await` points run atomically, which the sequential embeddings
  below reflect.  External effects (the HTTP oracle call, database reads)
  enter the embedding as explicit parameters holding their results.
-/

namespace HunchGenAi

/-- A JS `confidence` field as received from the oracle: a finite number,
the number `NaN`, or a string whose `parseFloat` image is `some q`
(numeric string) or `none` (non-numeric string, i.e. `NaN`). -/
inductive JsConf where
  | num (q : ℚ)
  | nanNum
  | str (parsed : Option ℚ)
  deriving DecidableEq, Repr

/-- The coercion in `requiresReview`/`determineAction`:
`typeof confidence === 'number' ? confidence : parseFloat(confidence)`.
The result is a JS number, possibly `NaN` (modelled as `none`). -/
def coerceConf : JsConf → Option ℚ
  | .num q => some q
  | .nanNum => none
  | .str p => p

/-- JS `x < t` on numbers where `x` may be `NaN` (`none`): any comparison
with `NaN` is false. -/
def nanLt (c : Option ℚ) (t : ℚ) : Bool :=
  match c with
  | some q => decide (q < t)
  | none => false

/-- JS `x >= t` on numbers where `x` may be `NaN` (`none`). -/
def nanGe (c : Option ℚ) (t : ℚ) : Bool :=
  match c with
  | some q => decide (t ≤ q)
  | none => false

/-- JS `x > t` on numbers where `x` may be `NaN` (`none`). -/
def nanGt (c : Option ℚ) (t : ℚ) : Bool :=
  match c with
  | some q => decide (t < q)
  | none => false

/-- A well-formed oracle response: an object that has a `present` field.
`rationale` is `none` when the field is absent.  A failed oracle call or a
response without `present` is represented by `none` at type
`Option GenAiResponse` (the code checks
`!genAiResponse || genAiResponse.present === undefined`). -/
structure GenAiResponse where
  present : Bool
  confidence : JsConf
  rationale : Option String
  score : Option ℚ
  deriving DecidableEq, Repr

/-- JS `rationale || defaultMsg`: both an absent field and the empty
string are falsy. -/
def jsOr (r : Option String) (d : String) : String :=
  match r with
  | some s => if s = "" then d else s
  | none => d

/-- The record returned by `determineAction`. -/
structure ActionResult where
  action : String
  finalScore : ℕ
  reason : String
  deriving DecidableEq, Repr

/-- `this.confidenceThreshold = 0.80` in the canonical (single-threshold)
`GenAiService`. -/
def confidenceThreshold : ℚ := 80 / 100

/-- `GenAiService.requiresReview` (single-threshold version):
true iff the derived oracle score differs from the LLM score and the
numerically coerced confidence compares `<` the threshold. -/
def requiresReview (genAiResponse : Option GenAiResponse) (llmScore : ℕ) : Bool :=
  match genAiResponse with
  | none => false
  | some r =>
    let genAiScore : ℕ := if r.present then 1 else 0
    let confValue := coerceConf r.confidence
    decide (genAiScore ≠ llmScore) && nanLt confValue confidenceThreshold

/-- `GenAiService.determineAction` (single-threshold version): Agree on
matching scores, Disagree (adopting the oracle score) on a disagreement
with coerced confidence `>=` threshold, otherwise Human review required
keeping the original score; a missing/malformed response yields `Agree`
with the original score and an empty reason. -/
def determineAction (llmScore : ℕ) (genAiResponse : Option GenAiResponse) : ActionResult :=
  match genAiResponse with
  | none => { action := "Agree", finalScore := llmScore, reason := "" }
  | some r =>
    let genAiScore : ℕ := if r.present then 1 else 0
    let confValue := coerceConf r.confidence
    if llmScore = genAiScore then
      { action := "Agree", finalScore := llmScore, reason := "" }
    else if nanGe confValue confidenceThreshold then
      { action := "Disagree", finalScore := genAiScore,
        reason := jsOr r.rationale "GenAI recommends a change based on analysis." }
    else
      { action := "Human review required", finalScore := llmScore,
        reason := jsOr r.rationale "GenAI suggested a change but confidence is low." }

/-- `this.confidenceThreshold = 0.90` in the earlier two-threshold
`GenAiService` variant. -/
def confidenceThresholdV1 : ℚ := 90 / 100

/-- Oracle response as used by the two-threshold variant, which compares
`confidence` directly (no string coercion): a JS number, `none` = NaN. -/
structure GenAiResponseV1 where
  present : Bool
  confidence : Option ℚ
  deriving DecidableEq, Repr

/-- `requiresReview` of the two-threshold variant. -/
def requiresReviewV1 (genAiResponse : Option GenAiResponseV1) (llmScore : ℕ) : Bool :=
  match genAiResponse with
  | none => false
  | some r =>
    let genAiScore : ℕ := if r.present then 1 else 0
    decide (genAiScore ≠ llmScore) && nanLt r.confidence confidenceThresholdV1

/-- `determineAction` of the two-threshold variant, with its decision
matrix and its distinct fallback for a failed oracle call. -/
def determineActionV1 (llmScore : ℕ) (genAiResponse : Option GenAiResponseV1) : ActionResult :=
  match genAiResponse with
  | none =>
    { action := "No change", finalScore := llmScore,
      reason := "GenAI API failed or invalid response" }
  | some r =>
    if requiresReviewV1 (some r) llmScore then
      { action := "Human review required", finalScore := llmScore,
        reason := "Score change detected with low confidence (< 0.90)" }
    else if llmScore == 1 && r.present && nanGt r.confidence confidenceThresholdV1 then
      { action := "No change", finalScore := 1,
        reason := "High confidence match, no change needed" }
    else if llmScore == 1 && !r.present && nanGt r.confidence confidenceThresholdV1 then
      { action := "Score removed", finalScore := 0,
        reason := "GenAI confirmed trait absence with high confidence" }
    else if llmScore == 0 && r.present && nanGt r.confidence confidenceThresholdV1 then
      { action := "Score added", finalScore := 1,
        reason := "GenAI confirmed trait presence with high confidence" }
    else if llmScore == 0 && !r.present then
      { action := "No change", finalScore := 0,
        reason := "Both LLM and GenAI agree trait is not present" }
    else
      { action := "No change", finalScore := llmScore,
        reason := "No significant change detected" }

/-- On a disagreement, `determineAction` adopts the oracle score exactly
when the coerced confidence is at least the threshold. -/
theorem determineAction_disagree (llmScore : ℕ) (r : GenAiResponse) (q : ℚ)
    (hq : coerceConf r.confidence = some q)
    (hne : ¬ llmScore = (if r.present then (1 : ℕ) else 0)) :
    determineAction llmScore (some r) =
      if confidenceThreshold ≤ q then
        { action := "Disagree", finalScore := (if r.present then 1 else 0),
          reason := jsOr r.rationale "GenAI recommends a change based on analysis." }
      else
        { action := "Human review required", finalScore := llmScore,
          reason := jsOr r.rationale "GenAI suggested a change but confidence is low." } := by
  simp only [determineAction, hq, nanGe, if_neg hne]
  by_cases h : confidenceThreshold ≤ q
  · rw [if_pos h, if_pos (by simpa using h)]
  · rw [if_neg h, if_neg (by simpa using h)]

/-- Claim C1: for a prior score in {0,1} and a well-formed oracle response
whose derived oracle score differs from the prior score and whose coerced
confidence is a number `q`: if `q` is at least the threshold,
`determineAction` returns the oracle score with action `Disagree`; if `q`
is below the threshold it keeps the prior score with action
`Human review required`.  At `q` exactly the threshold the oracle score
is adopted (witnessed below at `q = 0.8`). -/
theorem claim1_disagreement_policy (llmScore : ℕ)
    (_hscore : llmScore = 0 ∨ llmScore = 1)
    (r : GenAiResponse) (q : ℚ) (hq : coerceConf r.confidence = some q)
    (hne : (if r.present then (1 : ℕ) else 0) ≠ llmScore) :
    (confidenceThreshold ≤ q →
      (determineAction llmScore (some r)).action = "Disagree" ∧
      (determineAction llmScore (some r)).finalScore = (if r.present then 1 else 0)) ∧
    (q < confidenceThreshold →
      (determineAction llmScore (some r)).action = "Human review required" ∧
      (determineAction llmScore (some r)).finalScore = llmScore) := by
  rw [determineAction_disagree llmScore r q hq (fun h => hne h.symm)]
  constructor
  · intro hge
    rw [if_pos hge]
    exact ⟨rfl, rfl⟩
  · intro hlt
    rw [if_neg (not_le.mpr hlt)]
    exact ⟨rfl, rfl⟩

/-- Concrete disagreeing response with confidence exactly at the 0.80
threshold. -/
def atThresholdResp : GenAiResponse :=
  { present := false, confidence := .num (80 / 100), rationale := none, score := none }

/-- Witness for C1: prior score 1, oracle says absent with confidence
exactly 0.80: the oracle score 0 is adopted with action `Disagree`. -/
theorem claim1_disagreement_policy_witness :
    (determineAction 1 (some atThresholdResp)).action = "Disagree" ∧
    (determineAction 1 (some atThresholdResp)).finalScore = 0 := by
  have h := (claim1_disagreement_policy 1 (Or.inr rfl) atThresholdResp (80 / 100)
    rfl (by decide)).1 (le_refl _)
  exact ⟨h.1, h.2⟩

/-- Claim C2: for a prior score in {0,1} and a well-formed oracle response
whose derived oracle score equals the prior score, `determineAction`
returns the prior score with action `Agree`, for every confidence value
(numeric or not, below the threshold or not). -/
theorem claim2_agreement_policy (llmScore : ℕ)
    (_hscore : llmScore = 0 ∨ llmScore = 1)
    (r : GenAiResponse) (heq : (if r.present then (1 : ℕ) else 0) = llmScore) :
    (determineAction llmScore (some r)).action = "Agree" ∧
    (determineAction llmScore (some r)).finalScore = llmScore := by
  have h : determineAction llmScore (some r) =
      { action := "Agree", finalScore := llmScore, reason := "" } := by
    simp only [determineAction, if_pos heq.symm]
  rw [h]
  exact ⟨rfl, rfl⟩

/-- Concrete agreeing response with a non-numeric (NaN) confidence. -/
def agreeNaNResp : GenAiResponse :=
  { present := false, confidence := .str none, rationale := none, score := none }

/-- Witness for C2: prior score 0, oracle also says absent, confidence
non-numeric (in particular below any threshold): still `Agree`. -/
theorem claim2_agreement_policy_witness :
    (determineAction 0 (some agreeNaNResp)).action = "Agree" ∧
    (determineAction 0 (some agreeNaNResp)).finalScore = 0 :=
  claim2_agreement_policy 0 (Or.inl rfl) agreeNaNResp (by decide)

/-- Counterexample to C3 as stated: on a missing/malformed oracle
response the canonical `determineAction` returns action `"Agree"` (not
`"No change"`) and an empty reason (not a failure description). -/
theorem claim3_counterexample :
    (determineAction 0 none).action = "Agree" ∧
    (determineAction 0 none).action ≠ "No change" ∧
    (determineAction 0 none).reason = "" := by
  refine ⟨rfl, ?_, rfl⟩
  decide

/-- Claim C3 (amended): when the oracle response is absent or malformed,
the returned final score is the prior score; the canonical
single-threshold `determineAction` labels this `Agree` with an empty
reason, while the earlier two-threshold variant labelled it `No change`
with the failure description. -/
theorem claim3_failed_oracle_fallback (llmScore : ℕ) :
    determineAction llmScore none =
      { action := "Agree", finalScore := llmScore, reason := "" } ∧
    determineActionV1 llmScore none =
      { action := "No change", finalScore := llmScore,
        reason := "GenAI API failed or invalid response" } :=
  ⟨rfl, rfl⟩

/-- Disagreeing response (oracle says present) with a non-numeric
confidence: `parseFloat` yields NaN. -/
def nanResp : GenAiResponse :=
  { present := true, confidence := .str none, rationale := none, score := none }

/-- Counterexample to C4 as stated: prior score 0, oracle disagrees with
a non-numeric confidence.  NaN compares false on both sides of the
threshold, so `requiresReview` returns `false` (the claim says `true`)
even though `determineAction` does fall through to
`Human review required`. -/
theorem claim4_counterexample :
    requiresReview (some nanResp) 0 = false ∧
    (determineAction 0 (some nanResp)).action = "Human review required" :=
  ⟨rfl, rfl⟩

/-- Claim C4 (amended): `requiresReview` returns true iff the derived
oracle score differs from the prior score and the coerced confidence is a
number strictly below the threshold.  A non-numeric confidence (NaN)
satisfies neither `< threshold` nor `>= threshold`, so a disagreement
with non-numeric confidence yields `requiresReview = false` while
`determineAction` still returns the `Human review required` action: the
two functions diverge on NaN. -/
theorem claim4_requiresReview_projection (llmScore : ℕ) (r : GenAiResponse) :
    (requiresReview (some r) llmScore = true ↔
      ((if r.present then (1 : ℕ) else 0) ≠ llmScore ∧
        ∃ q, coerceConf r.confidence = some q ∧ q < confidenceThreshold)) ∧
    (coerceConf r.confidence = none →
      requiresReview (some r) llmScore = false ∧
      ((if r.present then (1 : ℕ) else 0) ≠ llmScore →
        (determineAction llmScore (some r)).action = "Human review required")) := by
  constructor
  · simp only [requiresReview, Bool.and_eq_true, decide_eq_true_eq]
    constructor
    · rintro ⟨h1, h2⟩
      refine ⟨h1, ?_⟩
      cases hc : coerceConf r.confidence with
      | none => rw [hc] at h2; simp [nanLt] at h2
      | some q =>
        rw [hc] at h2
        exact ⟨q, rfl, by simpa [nanLt] using h2⟩
    · rintro ⟨h1, q, hc, hlt⟩
      exact ⟨h1, by simp [nanLt, hc, hlt]⟩
  · intro hc
    constructor
    · simp [requiresReview, nanLt, hc]
    · intro hne
      have hne2 : ¬ llmScore = (if r.present then (1 : ℕ) else 0) := fun h => hne h.symm
      simp only [determineAction, if_neg hne2, hc, nanGe]
      rfl

/-- Disagreeing response (oracle says absent) with a non-numeric
confidence. -/
def nanRespAbsent : GenAiResponse :=
  { present := false, confidence := .str none, rationale := none, score := none }

/-- Witness for C4 (amended): prior score 1, oracle says absent with
non-numeric confidence: `requiresReview` is false yet the action is
`Human review required`. -/
theorem claim4_requiresReview_projection_witness :
    requiresReview (some nanRespAbsent) 1 = false ∧
    (determineAction 1 (some nanRespAbsent)).action = "Human review required" := by
  have h := (claim4_requiresReview_projection 1 nanRespAbsent).2 rfl
  exact ⟨h.1, h.2 (by decide)⟩

/-!
## Document updates performed by the item processor

`processSingleItem` (`server.js`) and `processGenAiValidation`
(worker variant) both update the target object's `traits` and
`reviewTags` arrays the same way.
-/

/-- The trait-set delta of the item processor:

    if (finalScore === 1 && !hasTrait) targetObject.traits.push(traitTitle);
    else if (finalScore === 0 && hasTrait)
      targetObject.traits = targetObject.traits.filter(t => t !== traitTitle);

where `hasTrait = targetObject.traits.includes(traitTitle)`. -/
def applyTraitDelta (finalScore : ℕ) (traitTitle : String) (traits : List String) :
    List String :=
  if finalScore = 1 ∧ traitTitle ∉ traits then traits ++ [traitTitle]
  else if finalScore = 0 ∧ traitTitle ∈ traits then
    traits.filter (fun t => t != traitTitle)
  else traits

/-- The review-tag update of the item processor:

    if (needsReview && !targetObject.reviewTags.includes(traitTitle))
      targetObject.reviewTags.push(traitTitle);

No branch ever removes a tag. -/
def updateReviewTags (needsReview : Bool) (traitTitle : String)
    (reviewTags : List String) : List String :=
  if needsReview ∧ traitTitle ∉ reviewTags then reviewTags ++ [traitTitle]
  else reviewTags

/-- The review-tag state of one document after a sequence of
reconciliations, each given by the trait processed and whether the
policy's `requiresReview` was true for it. -/
def processReviewTags (init : List String) (steps : List (String × Bool)) :
    List String :=
  steps.foldl (fun tags s => updateReviewTags s.2 s.1 tags) init

/-- Membership after one review-tag update. -/
theorem mem_updateReviewTags (needsReview : Bool) (traitTitle t : String)
    (tags : List String) :
    t ∈ updateReviewTags needsReview traitTitle tags ↔
      t ∈ tags ∨ (needsReview = true ∧ t = traitTitle) := by
  unfold updateReviewTags
  split
  · next h =>
    simp only [List.mem_append, List.mem_singleton]
    constructor
    · rintro (ht | ht)
      · exact Or.inl ht
      · exact Or.inr ⟨h.1, ht⟩
    · rintro (ht | ht)
      · exact Or.inl ht
      · exact Or.inr ht.2
  · next h =>
    constructor
    · exact Or.inl
    · rintro (ht | ⟨hb, ht⟩)
      · exact ht
      · subst ht
        rcases not_and_or.mp h with h1 | h1
        · exact absurd hb h1
        · exact not_not.mp h1

/-- Membership after a sequence of review-tag updates. -/
theorem mem_processReviewTags (init : List String) (steps : List (String × Bool))
    (t : String) :
    t ∈ processReviewTags init steps ↔ t ∈ init ∨ (t, true) ∈ steps := by
  induction steps generalizing init with
  | nil => simp [processReviewTags]
  | cons s rest ih =>
    rcases s with ⟨tt, b⟩
    show t ∈ processReviewTags (updateReviewTags b tt init) rest ↔ _
    rw [ih, mem_updateReviewTags]
    simp only [List.mem_cons, Prod.mk.injEq]
    constructor
    · rintro ((h | ⟨hb, ht⟩) | h)
      · exact Or.inl h
      · exact Or.inr (Or.inl ⟨ht, hb.symm⟩)
      · exact Or.inr (Or.inr h)
    · rintro (h | (⟨ht, hb⟩ | h))
      · exact Or.inl (Or.inl h)
      · exact Or.inl (Or.inr ⟨hb.symm, ht⟩)
      · exact Or.inr h

/-- Counterexample to C5 as stated: starting from an empty tag set,
a review-requiring reconciliation of trait `"T"` followed by a
non-review reconciliation of the same trait leaves the tag in place:
the code never removes review tags, so the tag does not reflect the most
recent reconciliation. -/
theorem claim5_counterexample :
    processReviewTags [] [("T", true), ("T", false)] = ["T"] ∧
    [("T", true), ("T", false)].getLast? = some ("T", false) := by
  constructor
  · rfl
  · rfl

/-- Claim C5 (amended): after any sequence of reconciliations on one
document, a review tag for a trait is present iff it was present
initially or at least one reconciliation of that trait (not necessarily
the most recent one) required review; tags are never removed, so a later
non-review reconciliation of the same trait leaves an earlier tag in
place. -/
theorem claim5_review_tags (init : List String) (steps : List (String × Bool))
    (t : String) :
    (t ∈ processReviewTags init steps ↔ t ∈ init ∨ (t, true) ∈ steps) ∧
    (t ∈ init → t ∈ processReviewTags init steps) :=
  ⟨mem_processReviewTags init steps t,
   fun ht => (mem_processReviewTags init steps t).mpr (Or.inl ht)⟩

/-- Witness for C5 (amended): a review-then-no-review run of trait `"T"`
leaves the tag set; a pre-existing tag survives a non-review step. -/
theorem claim5_review_tags_witness :
    "T" ∈ processReviewTags [] [("T", true), ("T", false)] ∧
    "T" ∈ processReviewTags ["T"] [("T", false)] :=
  ⟨(claim5_review_tags [] [("T", true), ("T", false)] "T").1.mpr
      (Or.inr (by decide)),
   (claim5_review_tags ["T"] [("T", false)] "T").2 (by decide)⟩

/-- Claim C10: the trait-set delta is idempotent (applying the same
decision twice yields the same list as applying it once), and it
preserves freedom from duplicate entries. -/
theorem claim10_trait_delta_idempotent (finalScore : ℕ) (traitTitle : String)
    (traits : List String) :
    applyTraitDelta finalScore traitTitle
        (applyTraitDelta finalScore traitTitle traits) =
      applyTraitDelta finalScore traitTitle traits ∧
    (traits.Nodup → (applyTraitDelta finalScore traitTitle traits).Nodup) := by
  constructor
  · unfold applyTraitDelta
    split
    · next h =>
      have hmem : traitTitle ∈ traits ++ [traitTitle] := by
        simp
      rw [if_neg (fun hc => hc.2 hmem), if_neg (fun hc => by omega)]
    · next h =>
      split
      · next h2 =>
        have hmem : traitTitle ∉ traits.filter (fun t => t != traitTitle) := by
          simp [List.mem_filter]
        rw [if_neg (fun hc => by omega), if_neg (fun hc => hmem hc.2)]
      · next h2 =>
        rfl
  · intro hnd
    unfold applyTraitDelta
    split
    · next h =>
      have : traits ++ [traitTitle] = traits.concat traitTitle := by
        simp
      rw [this]
      exact List.Nodup.concat h.2 hnd
    · split
      · exact hnd.filter _
      · exact hnd

/-- Witness for C10: one concrete double application (score-removal case)
and the duplicate-freedom of its result. -/
theorem claim10_trait_delta_idempotent_witness :
    applyTraitDelta 0 "T" (applyTraitDelta 0 "T" ["A", "T"]) =
      applyTraitDelta 0 "T" ["A", "T"] ∧
    (applyTraitDelta 0 "T" ["A", "T"]).Nodup := by
  have h := claim10_trait_delta_idempotent 0 "T" ["A", "T"]
  exact ⟨h.1, h.2 (by decide)⟩

/-!
## Progress tracker

`processGenAiValidation` (worker variant) keeps two process-wide
counters, `processedCounter : number` and `expectedCount : number|null`,
and runs a `finally` block after every item attempt that reaches the
`try`.  The synchronous section of that block (increment, completion
check, reset) contains no `await`, so on the single-threaded JS event
loop it runs atomically; the embedding below is the sequential
application of that step.
-/

/-- The pair of global counters: `processedCounter` and `expectedCount`
(`none` = the JS `null`, i.e. no active scope). -/
structure TrackerState where
  processedCounter : ℕ
  expectedCount : Option ℕ
  deriving DecidableEq, Repr

/-- The external effects performed by the completion branch, in program
order: the bulk `Trait.updateMany({processed:false},{processed:true})`
write, then the `process_completed` broadcast. -/
inductive FinalEffect where
  | bulkMarkProcessed
  | broadcastProcessCompleted
  deriving DecidableEq, Repr

/-- The `finally` block of `processGenAiValidation`: increment the
counter; if an expected count is set and has been reached, reset both
counters to the no-active-scope state and only then perform the bulk
write and the completion broadcast (returned here as the ordered effect
list, to be interpreted from the returned state). -/
def finallyStep (st : TrackerState) : TrackerState × List FinalEffect :=
  let c := st.processedCounter + 1
  match st.expectedCount with
  | none => (⟨c, none⟩, [])
  | some e =>
    if e ≤ c then (⟨0, none⟩, [.bulkMarkProcessed, .broadcastProcessCompleted])
    else (⟨c, some e⟩, [])

/-- Deliver a sequence of item completions (each flagged success or
failure; the `finally` step does not inspect the flag) to the tracker:
returns the final state and how many times the finalization fired. -/
def runCompletions : TrackerState → List Bool → TrackerState × ℕ
  | st, [] => (st, 0)
  | st, _ :: rest =>
    let s1 := finallyStep st
    let r := runCompletions s1.1 rest
    (r.1, (if s1.2 = [] then 0 else 1) + r.2)

/-- With no active scope the tracker only counts; it never fires. -/
theorem runCompletions_none (c : ℕ) (flags : List Bool) :
    runCompletions ⟨c, none⟩ flags = (⟨c + flags.length, none⟩, 0) := by
  induction flags generalizing c with
  | nil => simp [runCompletions]
  | cons b rest ih =>
    have h1 : c + 1 + rest.length = c + (rest.length + 1) := by omega
    simp [runCompletions, finallyStep, ih, h1]

/-- From an active scope with `flags.length` completions remaining, the
finalization fires exactly once, at the last completion, and leaves the
reset state. -/
theorem runCompletions_completes (e : ℕ) (flags : List Bool) :
    ∀ c, c < e → flags.length = e - c →
      runCompletions ⟨c, some e⟩ flags = (⟨0, none⟩, 1) := by
  induction flags with
  | nil =>
    intro c hc hlen
    simp only [List.length_nil] at hlen
    omega
  | cons b rest ih =>
    intro c hc hlen
    simp only [List.length_cons] at hlen
    simp only [runCompletions, finallyStep]
    by_cases he : e ≤ c + 1
    · have hrest : rest = [] := by
        have : rest.length = 0 := by omega
        exact List.length_eq_zero.mp this
      subst hrest
      rw [if_pos he]
      simp [runCompletions]
    · rw [if_neg he]
      have h := ih (c + 1) (by omega) (by omega)
      rw [h]
      simp

/-- Claim C7: from a fresh scope with `expectedCount = n`, after exactly
`n` completions (mixed success/failure, in any order) the finalization
fires exactly once and the counters end in the reset state `(0, null)`;
moreover whenever the finalization fires, the state accompanying the
bulk-write and broadcast effects is already the reset state, so no later
completion can re-trigger it. -/
theorem claim7_completion_fires_once (n : ℕ) (hn : 0 < n) (flags : List Bool)
    (hlen : flags.length = n) :
    runCompletions ⟨0, some n⟩ flags = (⟨0, none⟩, 1) ∧
    (∀ st : TrackerState, (finallyStep st).2 ≠ [] →
      (finallyStep st).1 = ⟨0, none⟩ ∧
      (finallyStep st).2 = [.bulkMarkProcessed, .broadcastProcessCompleted]) := by
  constructor
  · exact runCompletions_completes n flags 0 hn (by omega)
  · intro st hne
    rcases st with ⟨c, eo⟩
    cases eo with
    | none => exact absurd rfl hne
    | some e =>
      simp only [finallyStep] at hne ⊢
      by_cases he : e ≤ c + 1
      · rw [if_pos he]
        exact ⟨rfl, rfl⟩
      · rw [if_neg he] at hne
        exact absurd rfl hne

/-- Witness for C7: three completions against `expectedCount = 3` fire
once and reset; a firing step hands the reset state to its effects. -/
theorem claim7_completion_fires_once_witness :
    runCompletions ⟨0, some 3⟩ [true, false, true] = (⟨0, none⟩, 1) ∧
    (finallyStep ⟨4, some 5⟩).1 = ⟨0, none⟩ := by
  have h := claim7_completion_fires_once 3 (by decide) [true, false, true] rfl
  exact ⟨h.1, (h.2 ⟨4, some 5⟩ (by decide)).1⟩

/-!
## Item processor (`processGenAiValidation`, worker variant)

The oracle call and the database reads are external effects; their
results enter the embedding as parameters (`oracle`, `docLookup`, `db`).
The `version`/`project_input`/`concept_input` logic only selects the
arguments of the oracle call and is therefore absorbed into the `oracle`
parameter.
-/

/-- Configuration entry from the `traits` list (the fields the processor
reads). -/
structure TraitConfig where
  gcsFileName : String
  title : String
  initialReactionEnabled : Bool
  contextPromptEnabled : Bool
  deriving DecidableEq, Repr

/-- One dispatched work item `{ ID, commentPrediction }`.  A missing `ID`
is `none`; the code treats missing and empty IDs as falsy. -/
structure WorkItem where
  ID : Option String
  commentPrediction : ℕ
  deriving DecidableEq, Repr

/-- JS truthiness of an optional string (null/undefined and `""` are
falsy). -/
def jsTruthy : Option String → Bool
  | some s => s != ""
  | none => false

/-- The audit record pushed onto `genAiRecords` (the timestamp, a wall
clock read, is omitted). -/
structure GenAiRecord where
  llmScore : ℕ
  genAiSays : Option GenAiResponse
  finalScore : ℕ
  action : String
  traitTitle : String
  deriving DecidableEq, Repr

/-- The nested `initial_reaction` / `context_prompt` object of a trait
document. -/
structure TargetObject where
  text : Option String
  genAiRecords : List GenAiRecord
  traits : List String
  reviewTags : List String
  deriving DecidableEq, Repr

/-- A trait document (the fields the processor touches). -/
structure TraitDoc where
  initial_reaction : Option TargetObject
  context_prompt : Option TargetObject
  processed : Bool
  deriving DecidableEq, Repr

/-- Result of the external `genAiService.classify` call: `failure` models
`{success:false}` (transport error, timeout, 5xx); `success data` models
`{success:true, data}`, where `data = none` stands for a returned object
without a `present` field. -/
inductive ClassifyOutcome where
  | failure (error : String)
  | success (data : Option GenAiResponse)
  deriving DecidableEq, Repr

/-- Per-item result of `processGenAiValidation`'s `try`/`catch`. -/
inductive ItemResult where
  | ok (documentId : String) (finalScore : ℕ)
  | fail (error : String)
  deriving DecidableEq, Repr

/-- The mutation applied to the target object on a successful oracle
call: push the audit record, apply the trait-set delta, add the review
tag when `requiresReview` holds. -/
def applyDecisionToTarget (tobj : TargetObject) (llmScore : ℕ)
    (data : Option GenAiResponse) (traitTitle : String) : TargetObject :=
  let res := determineAction llmScore data
  let needsReview := requiresReview data llmScore
  let record : GenAiRecord :=
    { llmScore := llmScore, genAiSays := data, finalScore := res.finalScore,
      action := res.action, traitTitle := traitTitle }
  { tobj with
    genAiRecords := tobj.genAiRecords ++ [record],
    traits := applyTraitDelta res.finalScore traitTitle tobj.traits,
    reviewTags := updateReviewTags needsReview traitTitle tobj.reviewTags }

/-- The part of the `try` block from the target-object resolution
onwards.  `isInitial` records which of the two nested objects the `type`
selected.  The returned document is `some` exactly when `traitDoc.save()`
ran. -/
def processTarget (item : WorkItem) (traitDoc : TraitDoc) (isInitial : Bool)
    (traitTitle : String) (oracle : ClassifyOutcome) :
    ItemResult × Option TraitDoc :=
  let targetObject :=
    if isInitial then traitDoc.initial_reaction else traitDoc.context_prompt
  match targetObject with
  | none => (.fail "Target object or text not found", none)
  | some tobj =>
    if !(jsTruthy tobj.text) then (.fail "Target object or text not found", none)
    else
      match oracle with
      | .failure err => (.fail ("GenAI API failed: " ++ err), none)
      | .success data =>
        let llmScore := item.commentPrediction
        let tobj2 := applyDecisionToTarget tobj llmScore data traitTitle
        let doc2 :=
          if isInitial then { traitDoc with initial_reaction := some tobj2 }
          else { traitDoc with context_prompt := some tobj2 }
        (.ok (item.ID.getD "") (determineAction llmScore data).finalScore, some doc2)

/-- The `try` block of `processGenAiValidation`: ID check, document
fetch, type dispatch, then `processTarget`.  A thrown oracle error is
caught and returned as a failure result (the `catch` branch). -/
def processItemTry (item : WorkItem) (traitTitle : String) (ty : String)
    (docLookup : Option TraitDoc) (oracle : ClassifyOutcome) :
    ItemResult × Option TraitDoc :=
  if !(jsTruthy item.ID) then (.fail "Missing ID", none)
  else
    match docLookup with
    | none => (.fail "Document not found", none)
    | some traitDoc =>
      if ty = "INITIAL_REACTION" then
        processTarget item traitDoc true traitTitle oracle
      else if ty = "CONTEXT_PROMPT" then
        processTarget item traitDoc false traitTitle oracle
      else (.fail ("Invalid type: " ++ ty), none)

/-- The two `countDocuments` reads used by the lazy `expectedCount`
computation. -/
structure ExpectedInputs where
  docsWithInitial : ℕ
  docsWithContext : ℕ
  deriving DecidableEq, Repr

/-- `expectedCount = docsWithInitial * initialTraitsCount +
docsWithContext * contextTraitsCount`. -/
def computeExpected (cfg : List TraitConfig) (db : ExpectedInputs) : ℕ :=
  let initialTraitsCount := (cfg.filter (fun t => t.initialReactionEnabled)).length
  let contextTraitsCount := (cfg.filter (fun t => t.contextPromptEnabled)).length
  db.docsWithInitial * initialTraitsCount + db.docsWithContext * contextTraitsCount

/-- The lazy scope initialisation at the top of
`processGenAiValidation`: when `expectedCount` is `null`, compute it from
the store; otherwise leave the state unchanged. -/
def lazyInitExpected (cfg : List TraitConfig) (db : ExpectedInputs)
    (st : TrackerState) : TrackerState :=
  match st.expectedCount with
  | none => ⟨st.processedCounter, some (computeExpected cfg db)⟩
  | some _ => st

/-- Everything observable about one `processGenAiValidation` call. -/
structure ProcessOutcome where
  result : ItemResult
  savedDoc : Option TraitDoc
  tracker : TrackerState
  finalEffects : List FinalEffect
  deriving DecidableEq, Repr

/-- `processGenAiValidation`: lazy scope initialisation, trait-config
lookup by `model_filename` (an unmatched model returns *before* the
`try`, so the `finally` never runs on that path), then the `try` body and
the `finally` step. -/
def processGenAiValidation (cfg : List TraitConfig) (db : ExpectedInputs)
    (item : WorkItem) (model_filename ty : String)
    (docLookup : Option TraitDoc) (oracle : ClassifyOutcome)
    (st : TrackerState) : ProcessOutcome :=
  let st1 := lazyInitExpected cfg db st
  match cfg.find? (fun t => t.gcsFileName == model_filename) with
  | none =>
    { result := .fail "Trait not found", savedDoc := none,
      tracker := st1, finalEffects := [] }
  | some matchedTrait =>
    let body := processItemTry item matchedTrait.title ty docLookup oracle
    let fin := finallyStep st1
    { result := body.1, savedDoc := body.2,
      tracker := fin.1, finalEffects := fin.2 }

/-- A failed oracle call makes `processTarget` return a failure with no
document write, on every path. -/
theorem processTarget_failure (item : WorkItem) (traitDoc : TraitDoc)
    (isInitial : Bool) (traitTitle err : String) :
    ∃ msg, processTarget item traitDoc isInitial traitTitle (.failure err) =
      (.fail msg, none) := by
  simp only [processTarget]
  cases hto : (if isInitial then traitDoc.initial_reaction else traitDoc.context_prompt) with
  | none => exact ⟨"Target object or text not found", rfl⟩
  | some tobj =>
    cases hb : (!jsTruthy tobj.text) with
    | true => exact ⟨"Target object or text not found", by simp [hb]⟩
    | false => exact ⟨"GenAI API failed: " ++ err, by simp [hb]⟩

/-- A failed oracle call makes the whole `try` body return a failure with
no document write, on every path. -/
theorem processItemTry_failure (item : WorkItem) (traitTitle ty : String)
    (docLookup : Option TraitDoc) (err : String) :
    ∃ msg, processItemTry item traitTitle ty docLookup (.failure err) =
      (.fail msg, none) := by
  simp only [processItemTry]
  by_cases hid : (!jsTruthy item.ID) = true
  · rw [if_pos hid]
    exact ⟨"Missing ID", rfl⟩
  · rw [if_neg hid]
    cases docLookup with
    | none => exact ⟨"Document not found", rfl⟩
    | some traitDoc =>
      by_cases h1 : ty = "INITIAL_REACTION"
      · obtain ⟨msg, hm⟩ := processTarget_failure item traitDoc true traitTitle err
        exact ⟨msg, by simp [h1, hm]⟩
      · by_cases h2 : ty = "CONTEXT_PROMPT"
        · obtain ⟨msg, hm⟩ := processTarget_failure item traitDoc false traitTitle err
          exact ⟨msg, by simp [h1, h2, hm]⟩
        · exact ⟨"Invalid type: " ++ ty, by simp [h1, h2]⟩

/-- A one-entry trait configuration used for concrete runs. -/
def cfgExample : List TraitConfig :=
  [{ gcsFileName := "Model.h5", title := "T",
     initialReactionEnabled := true, contextPromptEnabled := false }]

/-- A document with a non-empty initial-reaction text. -/
def docExample : TraitDoc :=
  { initial_reaction :=
      some { text := some "hello", genAiRecords := [], traits := [], reviewTags := [] },
    context_prompt := none, processed := false }

/-- Counterexample to C6 as stated: an attempt whose `model_filename`
matches no configured trait fails (`Trait not found`) by returning
*before* the `try`, so its `finally` never runs and `processedCounter`
is not incremented — not every failing attempt increments the counter. -/
theorem claim6_counterexample :
    (processGenAiValidation cfgExample ⟨5, 0⟩ ⟨some "A", 1⟩ "Other.h5"
        "INITIAL_REACTION" (some docExample) (.failure "timeout")
        ⟨0, some 5⟩).tracker.processedCounter = 0 ∧
    (processGenAiValidation cfgExample ⟨5, 0⟩ ⟨some "A", 1⟩ "Other.h5"
        "INITIAL_REACTION" (some docExample) (.failure "timeout")
        ⟨0, some 5⟩).result = .fail "Trait not found" :=
  ⟨rfl, rfl⟩

/-- Claim C6 (amended): for every attempt whose `model_filename` matches
a configured trait, the tracker update is exactly one `finally` step of
the lazily initialised state — identical for success and failure, so the
counter is incremented exactly once (when the completion threshold is not
hit, the new counter is the old one plus one); and whenever the oracle
call fails the item is recorded as failed and no document write occurs.
Attempts with an unmatched `model_filename` return before the
`try`/`finally` and do not increment. -/
theorem claim6_finally_increment (cfg : List TraitConfig) (db : ExpectedInputs)
    (item : WorkItem) (model_filename ty : String) (docLookup : Option TraitDoc)
    (oracle : ClassifyOutcome) (st : TrackerState) (tc : TraitConfig)
    (hfound : cfg.find? (fun t => t.gcsFileName == model_filename) = some tc) :
    ((processGenAiValidation cfg db item model_filename ty docLookup oracle st).tracker,
     (processGenAiValidation cfg db item model_filename ty docLookup oracle st).finalEffects)
      = finallyStep (lazyInitExpected cfg db st) ∧
    (∀ e, st.expectedCount = some e → st.processedCounter + 1 < e →
      (processGenAiValidation cfg db item model_filename ty docLookup oracle
          st).tracker.processedCounter = st.processedCounter + 1) ∧
    (∀ err, oracle = .failure err →
      (processGenAiValidation cfg db item model_filename ty docLookup oracle
          st).savedDoc = none ∧
      ∃ msg, (processGenAiValidation cfg db item model_filename ty docLookup
          oracle st).result = .fail msg) := by
  have hrw : processGenAiValidation cfg db item model_filename ty docLookup oracle st =
      { result := (processItemTry item tc.title ty docLookup oracle).1,
        savedDoc := (processItemTry item tc.title ty docLookup oracle).2,
        tracker := (finallyStep (lazyInitExpected cfg db st)).1,
        finalEffects := (finallyStep (lazyInitExpected cfg db st)).2 } := by
    simp only [processGenAiValidation, hfound]
  refine ⟨by rw [hrw], ?_, ?_⟩
  · intro e he hlt
    rw [hrw]
    have hlazy : lazyInitExpected cfg db st = st := by
      rcases st with ⟨c, eo⟩
      cases eo with
      | none => simp at he
      | some x => rfl
    rw [hlazy]
    rcases st with ⟨c, eo⟩
    simp only [TrackerState.expectedCount] at he
    subst he
    simp only [finallyStep, TrackerState.processedCounter]
    rw [if_neg (by simp only [TrackerState.processedCounter] at hlt; omega)]
  · intro err herr
    subst herr
    obtain ⟨msg, hmsg⟩ := processItemTry_failure item tc.title ty docLookup err
    rw [hrw]
    refine ⟨?_, msg, ?_⟩
    · show (processItemTry item tc.title ty docLookup (.failure err)).2 = none
      rw [hmsg]
    · show (processItemTry item tc.title ty docLookup (.failure err)).1 = .fail msg
      rw [hmsg]

/-- Witness for C6 (amended): a matched trait whose oracle call times
out: the counter goes 0 to 1 against an expected count of 5, the item
result is a failure, and no document write occurs. -/
theorem claim6_finally_increment_witness :
    (processGenAiValidation cfgExample ⟨5, 0⟩ ⟨some "A", 1⟩ "Model.h5"
        "INITIAL_REACTION" (some docExample) (.failure "timeout")
        ⟨0, some 5⟩).tracker.processedCounter = 1 ∧
    (processGenAiValidation cfgExample ⟨5, 0⟩ ⟨some "A", 1⟩ "Model.h5"
        "INITIAL_REACTION" (some docExample) (.failure "timeout")
        ⟨0, some 5⟩).savedDoc = none := by
  have h := claim6_finally_increment cfgExample ⟨5, 0⟩ ⟨some "A", 1⟩ "Model.h5"
    "INITIAL_REACTION" (some docExample) (.failure "timeout") ⟨0, some 5⟩
    { gcsFileName := "Model.h5", title := "T",
      initialReactionEnabled := true, contextPromptEnabled := false } rfl
  exact ⟨h.2.1 5 rfl (by decide), (h.2.2 "timeout" rfl).1⟩

/-!
## Concurrency limiter (`ConcurrencyController`, `server.js`)

`run(fn)` loops `while (running >= limit) await new Promise(r =>
queue.push(r))`, then does `running++`, awaits `fn()`, and in a `finally`
does `running--; queue.shift()?.()`.  The `while` check and `running++`
form one synchronous section (no `await` between them), so admission is
atomic on the JS event loop; a woken waiter re-executes the check as a
fresh `tryEnter` event.  The `finally` runs whether `fn` returned or
threw.
-/

/-- The controller's fields plus the set (as a list) of tasks currently
executing inside `fn`, for stating the concurrency bound.  `queue` holds
the queued resolvers, oldest first (`push` appends, `shift` takes the
head). -/
structure ControllerState where
  limit : ℕ
  running : ℕ
  queue : List ℕ
  executing : List ℕ
  deriving DecidableEq, Repr

/-- Scheduler events: a task runs the `while` check (either a fresh
`run()` call or a woken waiter), or a task's `fn` finishes, `ok`
recording whether it returned normally or threw. -/
inductive CEvent where
  | tryEnter (t : ℕ)
  | complete (t : ℕ) (ok : Bool)
  deriving DecidableEq, Repr

/-- One step of the controller.  Besides the next state it reports which
waiter (if any) the `queue.shift()` woke.  The `ok` flag is never
inspected: the `finally` block releases on both exit paths. -/
def cstep (s : ControllerState) (e : CEvent) : ControllerState × Option ℕ :=
  match e with
  | .tryEnter t =>
    if s.running < s.limit then
      ({ s with running := s.running + 1, executing := s.executing ++ [t] }, none)
    else
      ({ s with queue := s.queue ++ [t] }, none)
  | .complete t _ok =>
    if s.executing.contains t then
      ({ s with running := s.running - 1, executing := s.executing.erase t,
                queue := s.queue.tail }, s.queue.head?)
    else (s, none)

/-- `new ConcurrencyController(limit)`. -/
def cinit (limit : ℕ) : ControllerState := ⟨limit, 0, [], []⟩

/-- The state reached after a sequence of scheduler events. -/
def crun (limit : ℕ) (events : List CEvent) : ControllerState :=
  events.foldl (fun s e => (cstep s e).1) (cinit limit)

/-- The safety invariant: `running` counts exactly the executing tasks
and never exceeds the limit. -/
def ctrlInvariant (limit : ℕ) (s : ControllerState) : Prop :=
  s.limit = limit ∧ s.running = s.executing.length ∧ s.running ≤ limit

/-- Every step preserves the controller invariant. -/
theorem cstep_invariant (limit : ℕ) (s : ControllerState) (e : CEvent)
    (h : ctrlInvariant limit s) : ctrlInvariant limit (cstep s e).1 := by
  obtain ⟨hl, hr, hle⟩ := h
  cases e with
  | tryEnter t =>
    simp only [cstep]
    by_cases hc : s.running < s.limit
    · rw [if_pos hc]
      dsimp only
      refine ⟨hl, ?_, ?_⟩
      · simp [hr]
      · show s.running + 1 ≤ limit
        rw [hl] at hc
        omega
    · rw [if_neg hc]
      exact ⟨hl, hr, hle⟩
  | complete t ok =>
    simp only [cstep]
    by_cases hc : s.executing.contains t = true
    · rw [if_pos hc]
      dsimp only
      have hmem : t ∈ s.executing := by simpa using hc
      refine ⟨hl, ?_, ?_⟩
      · show s.running - 1 = (s.executing.erase t).length
        simp only [List.length_erase_of_mem hmem, hr]
      · show s.running - 1 ≤ limit
        omega
    · rw [if_neg hc]
      exact ⟨hl, hr, hle⟩

/-- The invariant holds in every reachable state. -/
theorem crun_invariant (limit : ℕ) (events : List CEvent) :
    ctrlInvariant limit (crun limit events) := by
  suffices h : ∀ s, ctrlInvariant limit s →
      ctrlInvariant limit (events.foldl (fun s e => (cstep s e).1) s) by
    exact h (cinit limit) ⟨rfl, rfl, Nat.zero_le _⟩
  induction events with
  | nil => exact fun s hs => hs
  | cons e rest ih =>
    intro s hs
    exact ih _ (cstep_invariant limit s e hs)

/-- Claim C8: in every state reachable by the concurrency controller the
number of concurrently executing admitted operations never exceeds the
limit (and the `running` counter tracks it exactly, so every slot taken
by an admitted task has been released by the time it is gone from
`executing`); a completion releases identically whether the wrapped
function returned or threw; and a release wakes exactly the head (the
oldest element) of the FIFO wait queue, leaving its tail. -/
theorem claim8_concurrency_limiter (limit : ℕ) (events : List CEvent) :
    ((crun limit events).executing.length ≤ limit ∧
      (crun limit events).running = (crun limit events).executing.length) ∧
    (∀ s t, cstep s (.complete t true) = cstep s (.complete t false)) ∧
    (∀ s t ok, s.executing.contains t = true →
      (cstep s (.complete t ok)).2 = s.queue.head? ∧
      (cstep s (.complete t ok)).1.queue = s.queue.tail) := by
  obtain ⟨hl, hr, hle⟩ := crun_invariant limit events
  refine ⟨⟨by omega, hr⟩, fun s t => rfl, ?_⟩
  intro s t ok hc
  have hstep : cstep s (.complete t ok) =
      ({ s with running := s.running - 1, executing := s.executing.erase t,
                queue := s.queue.tail }, s.queue.head?) := by
    simp only [cstep, if_pos hc]
  rw [hstep]
  exact ⟨rfl, rfl⟩

/-- Witness for C8: a run with three admission attempts against limit 2
stays within the bound; a concrete release wakes the oldest waiter. -/
theorem claim8_concurrency_limiter_witness :
    (crun 2 [.tryEnter 0, .tryEnter 1, .tryEnter 2, .complete 0 false]).executing.length ≤ 2 ∧
    (cstep ⟨2, 2, [5, 6], [0, 1]⟩ (.complete 0 true)).2 = some 5 ∧
    (cstep ⟨2, 2, [5, 6], [0, 1]⟩ (.complete 0 true)).1.queue = [6] := by
  have h := claim8_concurrency_limiter 2
    [.tryEnter 0, .tryEnter 1, .tryEnter 2, .complete 0 false]
  have h2 := h.2.2 ⟨2, 2, [5, 6], [0, 1]⟩ 0 true (by decide)
  exact ⟨h.1.1, h2.1, h2.2⟩

/-!
## Broadcast batching (`broadcastUpdate` / `flushBroadcastQueue`)

`broadcastUpdate` pushes each event onto `broadcastQueue`; a 500ms timer
or the queue reaching the max batch size triggers
`flushBroadcastQueue`, which splices off up to `BROADCAST_MAX_BATCH_SIZE`
events, sends a single event as-is and several as one `batch_update`
wrapper carrying the ordered list, and re-arms the timer while events
remain.  The per-observer delivery (backpressure, dead-client cleanup)
does not alter the payload.  Events are generic here: the function never
inspects them.
-/

/-- `const BROADCAST_MAX_BATCH_SIZE = 50`. -/
def BROADCAST_MAX_BATCH_SIZE : ℕ := 50

/-- What one flush sends: a lone event as-is, or a `batch_update` wrapper
holding the ordered list (its `count` field is the list's length). -/
inductive Payload (α : Type) where
  | single (e : α)
  | batchUpdate (updates : List α)
  deriving DecidableEq, Repr

/-- One `flushBroadcastQueue` run on the queued events: empty queue sends
nothing; otherwise splice off the first (up to) 50 events, sending one
event unwrapped and several as a single wrapper; the rest stay queued. -/
def flushBroadcastQueue {α : Type} (queue : List α) :
    Option (Payload α) × List α :=
  match queue with
  | [] => (none, [])
  | e :: rest =>
    let updates := (e :: rest).take BROADCAST_MAX_BATCH_SIZE
    let remaining := (e :: rest).drop BROADCAST_MAX_BATCH_SIZE
    if updates.length = 1 then (some (.single e), remaining)
    else (some (.batchUpdate updates), remaining)

/-- The payloads sent by repeatedly flushing until the queue drains (the
code re-arms the flush timer whenever events remain). -/
def flushAll {α : Type} : List α → List (Payload α)
  | [] => []
  | e :: rest =>
    (flushBroadcastQueue (e :: rest)).1.toList ++
      flushAll ((e :: rest).drop BROADCAST_MAX_BATCH_SIZE)
termination_by q => q.length
decreasing_by
  simp only [List.length_drop, List.length_cons, BROADCAST_MAX_BATCH_SIZE]
  omega

/-- The events carried by one payload, in order. -/
def payloadEvents {α : Type} : Payload α → List α
  | .single e => [e]
  | .batchUpdate us => us

/-- The remainder of a flush is always the queue minus its first 50
events. -/
theorem flushBroadcastQueue_snd {α : Type} (queue : List α) :
    (flushBroadcastQueue queue).2 = queue.drop BROADCAST_MAX_BATCH_SIZE := by
  cases queue with
  | nil => rfl
  | cons e rest =>
    simp only [flushBroadcastQueue]
    split <;> rfl

/-- The payload of a flush of a non-empty queue. -/
theorem flushBroadcastQueue_cons_fst {α : Type} (e : α) (rest : List α) :
    (flushBroadcastQueue (e :: rest)).1 =
      some (if ((e :: rest).take BROADCAST_MAX_BATCH_SIZE).length = 1
        then Payload.single e
        else Payload.batchUpdate ((e :: rest).take BROADCAST_MAX_BATCH_SIZE)) := by
  simp only [flushBroadcastQueue]
  split <;> simp_all

/-- The head payload of a flush carries exactly the first (up to) 50
queued events, whether wrapped or not. -/
theorem payloadEvents_head {α : Type} (e : α) (rest : List α) :
    payloadEvents
      (if ((e :: rest).take BROADCAST_MAX_BATCH_SIZE).length = 1
        then Payload.single e
        else Payload.batchUpdate ((e :: rest).take BROADCAST_MAX_BATCH_SIZE)) =
      (e :: rest).take BROADCAST_MAX_BATCH_SIZE := by
  split
  · next h =>
    have hrest : rest = [] := by
      cases rest with
      | nil => rfl
      | cons a tl =>
        exfalso
        simp [List.length_take, BROADCAST_MAX_BATCH_SIZE] at h
    subst hrest
    rfl
  · rfl

/-- Size bound and order preservation for the whole flush sequence. -/
theorem flushAll_spec {α : Type} :
    ∀ (n : ℕ) (queue : List α), queue.length ≤ n →
      (∀ p ∈ flushAll queue,
        (payloadEvents p).length ≤ BROADCAST_MAX_BATCH_SIZE) ∧
      ((flushAll queue).map payloadEvents).flatten = queue := by
  intro n
  induction n with
  | zero =>
    intro queue hlen
    have hq : queue = [] := List.length_eq_zero.mp (Nat.le_zero.mp hlen)
    subst hq
    exact ⟨fun p hp => absurd hp (by simp [flushAll]), by simp [flushAll]⟩
  | succ n ih =>
    intro queue hlen
    cases queue with
    | nil => exact ⟨fun p hp => absurd hp (by simp [flushAll]), by simp [flushAll]⟩
    | cons e rest =>
      have hdroplen : ((e :: rest).drop BROADCAST_MAX_BATCH_SIZE).length ≤ n := by
        simp only [List.length_drop, List.length_cons, BROADCAST_MAX_BATCH_SIZE]
        simp only [List.length_cons] at hlen
        omega
      obtain ⟨ih1, ih2⟩ := ih _ hdroplen
      have hstep : flushAll (e :: rest) =
          (flushBroadcastQueue (e :: rest)).1.toList ++
            flushAll ((e :: rest).drop BROADCAST_MAX_BATCH_SIZE) := by
        simp only [flushAll]
      rw [hstep, flushBroadcastQueue_cons_fst]
      constructor
      · intro p hp
        simp only [Option.toList_some, List.singleton_append, List.mem_cons] at hp
        rcases hp with hp | hp
        · subst hp
          rw [payloadEvents_head]
          exact List.length_take_le _ _
        · exact ih1 p hp
      · simp only [Option.toList_some, List.singleton_append, List.map_cons,
          List.flatten_cons]
        rw [payloadEvents_head, ih2, List.take_append_drop]

/-- Claim C9: a flush of exactly one queued event sends it unwrapped with
nothing left queued; a flush of two or more sends one `batch_update`
wrapper holding the first (up to) 50 events in arrival order and leaves
the rest queued; no payload ever carries more than 50 events; and the
concatenation of all flushed payloads is the original queue, so emission
order is preserved within and across batches. -/
theorem claim9_broadcast_batching {α : Type} (queue : List α) :
    (∀ e : α, flushBroadcastQueue [e] = (some (.single e), [])) ∧
    (2 ≤ queue.length →
      (flushBroadcastQueue queue).1 =
        some (.batchUpdate (queue.take BROADCAST_MAX_BATCH_SIZE)) ∧
      (flushBroadcastQueue queue).2 = queue.drop BROADCAST_MAX_BATCH_SIZE) ∧
    (∀ p ∈ flushAll queue,
      (payloadEvents p).length ≤ BROADCAST_MAX_BATCH_SIZE) ∧
    ((flushAll queue).map payloadEvents).flatten = queue := by
  obtain ⟨h3, h4⟩ := flushAll_spec queue.length queue (le_refl _)
  refine ⟨fun e => rfl, ?_, h3, h4⟩
  intro h2
  cases queue with
  | nil => simp at h2
  | cons e rest =>
    refine ⟨?_, flushBroadcastQueue_snd _⟩
    rw [flushBroadcastQueue_cons_fst]
    have hne : ((e :: rest).take BROADCAST_MAX_BATCH_SIZE).length ≠ 1 := by
      simp only [List.length_cons] at h2
      simp only [List.length_take, List.length_cons, BROADCAST_MAX_BATCH_SIZE]
      omega
    rw [if_neg hne]

/-- Witness for C9: a two-event queue flushes as one ordered
`batch_update`; its payload is within the size bound; concatenating the
flush sequence returns the original queue. -/
theorem claim9_broadcast_batching_witness :
    (flushBroadcastQueue [1, 2]).1 = some (.batchUpdate [1, 2]) ∧
    (payloadEvents (Payload.batchUpdate [1, 2])).length ≤ BROADCAST_MAX_BATCH_SIZE ∧
    ((flushAll [1, 2]).map payloadEvents).flatten = [1, 2] := by
  have h := claim9_broadcast_batching [1, 2]
  have hfa : flushAll [1, 2] = [Payload.batchUpdate [1, 2]] := by
    simp [flushAll, flushBroadcastQueue, BROADCAST_MAX_BATCH_SIZE]
  exact ⟨(h.2.1 (by decide)).1,
    h.2.2.1 (Payload.batchUpdate [1, 2]) (by rw [hfa]; exact List.mem_singleton_self _),
    h.2.2.2⟩

end HunchGenAi
